import Mathlib

/-!
Shallow embedding of the expense-tracker web application (`app.py`, `config.py`).

Amounts are Python floats in the source; they are modelled here as exact
rationals (`ℚ`).  Dates are calendar days.  The relational store is modelled
as an explicit in-memory state (a list of rows plus an autoincrement counter),
and each route handler becomes a pure function from state and request data to
the new state and a response.
-/

set_option autoImplicit false

namespace ExpenseApp

/-- Calendar day with no time component (models a `datetime.date`). -/
structure Date where
  year : Nat
  month : Nat
  day : Nat
deriving DecidableEq, Repr

/-- Split a character list on a separator character; models `str.split(sep)`
restricted to a single-character separator (always returns at least one,
possibly empty, group). -/
def splitOnChar (sep : Char) : List Char → List (List Char)
  | [] => [[]]
  | c :: rest =>
      let r := splitOnChar sep rest
      if c == sep then [] :: r
      else
        match r with
        | [] => [[c]]
        | g :: gs => (c :: g) :: gs

/-- Numeric value of a list of decimal digit characters. -/
def digitsVal (cs : List Char) : Nat :=
  cs.foldl (fun n c => n * 10 + (c.toNat - 48)) 0

/-- Whether every character in the list is a decimal digit. -/
def isDigits (cs : List Char) : Bool :=
  cs.all Char.isDigit

/-- Model of Python `float(s)` on an unsigned literal, restricted to plain
decimal literals: digits with at most one decimal point and at least one
digit overall (`"4"`, `"4.50"`, `"4."`, `".5"`); anything else fails.
Exponent, infinity and NaN spellings are outside the model. -/
def parseUnsignedFloat (cs : List Char) : Option ℚ :=
  match splitOnChar '.' cs with
  | [w] =>
      if w.length > 0 && isDigits w then some ((digitsVal w : ℚ)) else none
  | [w, f] =>
      if (w.length > 0 || f.length > 0) && isDigits w && isDigits f then
        some ((digitsVal w : ℚ) + (digitsVal f : ℚ) / (10 : ℚ) ^ f.length)
      else none
  | _ => none

/-- Model of Python `float(s)`: optional sign followed by an unsigned
decimal literal.  Returns `none` exactly where `float(...)` raises
`ValueError` (the uncaught `ValidationError` of the spec). -/
def parseFloat (s : String) : Option ℚ :=
  match s.toList with
  | '-' :: rest => (parseUnsignedFloat rest).map (fun q => -q)
  | '+' :: rest => parseUnsignedFloat rest
  | cs => parseUnsignedFloat cs

/-- Gregorian leap-year test (as in `datetime`). -/
def isLeapYear (y : Nat) : Bool :=
  (y % 4 == 0 && y % 100 != 0) || y % 400 == 0

/-- Number of days in a month (as in `datetime`). -/
def daysInMonth (y m : Nat) : Nat :=
  if m == 2 then (if isLeapYear y then 29 else 28)
  else if m == 4 || m == 6 || m == 9 || m == 11 then 30
  else 31

/-- Model of `datetime.strptime(s, "%Y-%m-%d").date()`: a four-digit year,
a one- or two-digit month in 1..12, a one- or two-digit day valid for that
month and year (year at least 1, as in `datetime.MINYEAR`).  Returns `none`
exactly where `strptime` raises `ValueError`. -/
def parseDate (s : String) : Option Date :=
  match splitOnChar '-' s.toList with
  | [ys, ms, ds] =>
      if ys.length == 4 && isDigits ys
          && (ms.length == 1 || ms.length == 2) && isDigits ms
          && (ds.length == 1 || ds.length == 2) && isDigits ds then
        let y := digitsVal ys
        let m := digitsVal ms
        let d := digitsVal ds
        if 1 ≤ y ∧ 1 ≤ m ∧ m ≤ 12 ∧ 1 ≤ d ∧ d ≤ daysInMonth y m then
          some ⟨y, m, d⟩
        else none
      else none
  | _ => none

/-- Row of the `expense` table (`class Expense(db.Model)`): the
`expense_type` column is a free string with no constraint to
`income`/`expense`, and `user_id` is the owning user's id. -/
structure Expense where
  id : Nat
  title : String
  amount : ℚ
  category : String
  expense_type : String
  date : Date
  user_id : Nat
deriving DecidableEq, Repr

/-- Ledger store state: the `expense` table rows plus the autoincrement
counter for the next primary key. -/
structure LedgerState where
  expenses : List Expense
  nextId : Nat
deriving DecidableEq, Repr

/-- Raw form fields of the add/edit forms, as submitted (amount and date
still unparsed strings). -/
structure EntryForm where
  title : String
  amount : String
  category : String
  expense_type : String
  date : String
deriving DecidableEq, Repr

/-- Outcome of a request, as observable by the client: a redirect to a
named view, an HTTP 404 from `get_or_404` (a handled failure), or an
uncaught `ValueError` from parsing (the spec's `ValidationError`, which the
handlers do not recover into a notice-and-redirect). -/
inductive Response
  | redirect (target : String)
  | notFound
  | validationError
deriving DecidableEq, Repr

/-- Rows of the ledger belonging to the given user
(`Expense.query.filter_by(user=current_user)`). -/
def userExpenses (st : LedgerState) (uid : Nat) : List Expense :=
  st.expenses.filter (fun e => e.user_id == uid)

/-- Handler for `POST /add` (`add_expense`): parse amount and date, then
insert a new row owned by the current user.  A parse failure raises before
any row is created, so the state is returned unchanged with
`validationError`. -/
def add_expense (st : LedgerState) (uid : Nat) (form : EntryForm) :
    LedgerState × Response :=
  match parseFloat form.amount, parseDate form.date with
  | some amt, some d =>
      (⟨st.expenses ++
          [⟨st.nextId, form.title, amt, form.category, form.expense_type, d, uid⟩],
        st.nextId + 1⟩,
       Response.redirect "dashboard")
  | _, _ => (st, Response.validationError)

/-- Handler for `GET /delete/(id)` (`delete_expense`): `get_or_404`, then
delete only when the row's owner is the current user; on an ownership
mismatch the handler silently falls through to the redirect. -/
def delete_expense (st : LedgerState) (uid : Nat) (eid : Nat) :
    LedgerState × Response :=
  match st.expenses.find? (fun e => e.id == eid) with
  | none => (st, Response.notFound)
  | some e =>
      if e.user_id == uid then
        (⟨st.expenses.filter (fun x => x.id != eid), st.nextId⟩,
         Response.redirect "view_expenses")
      else (st, Response.redirect "view_expenses")

/-- Handler for `POST /edit/(id)` (`edit_expense`): `get_or_404`, ownership
check (mismatch flashes and redirects to the dashboard), then parse and
overwrite the row's five mutable fields.  A parse failure raises before
`db.session.commit()`, so no change is persisted and the state is returned
unchanged with `validationError`.  The row's `id` and `user_id` are never
assigned. -/
def edit_expense (st : LedgerState) (uid : Nat) (eid : Nat) (form : EntryForm) :
    LedgerState × Response :=
  match st.expenses.find? (fun e => e.id == eid) with
  | none => (st, Response.notFound)
  | some e =>
      if e.user_id != uid then (st, Response.redirect "dashboard")
      else
        match parseFloat form.amount, parseDate form.date with
        | some amt, some d =>
            (⟨st.expenses.map (fun x =>
                if x.id == eid then
                  ⟨x.id, form.title, amt, form.category, form.expense_type, d,
                    x.user_id⟩
                else x),
              st.nextId⟩,
             Response.redirect "view_expenses")
        | _, _ => (st, Response.validationError)

/-- Dashboard aggregate `total_income = sum(e.amount for e in expenses if
e.expense_type == 'income')`. -/
def total_income (es : List Expense) : ℚ :=
  ((es.filter (fun e => e.expense_type == "income")).map (fun e => e.amount)).sum

/-- Dashboard aggregate `total_expense = sum(e.amount for e in expenses if
e.expense_type == 'expense')`. -/
def total_expense (es : List Expense) : ℚ :=
  ((es.filter (fun e => e.expense_type == "expense")).map (fun e => e.amount)).sum

/-- Dashboard aggregate `net_balance = total_income - total_expense`. -/
def net_balance (es : List Expense) : ℚ :=
  total_income es - total_expense es

/-- Adding `amt` to key `cat` of an association list, modelling one
`category_data[e.category] += e.amount` step on a `defaultdict(float)`:
the first binding of the key is updated in place, a missing key is
appended at the end (dict insertion order). -/
def addToBreakdown (acc : List (String × ℚ)) (cat : String) (amt : ℚ) :
    List (String × ℚ) :=
  match acc with
  | [] => [(cat, amt)]
  | (c, v) :: rest =>
      if c == cat then (c, v + amt) :: rest
      else (c, v) :: addToBreakdown rest cat amt

/-- Body of the dashboard loop building `category_data`: an expense-kind
row is folded into the breakdown, any other row is skipped. -/
def breakdownStep (acc : List (String × ℚ)) (e : Expense) : List (String × ℚ) :=
  if e.expense_type == "expense" then addToBreakdown acc e.category e.amount
  else acc

/-- Dashboard loop building `category_data`: rows are folded in input
order into an initially empty breakdown. -/
def category_data (es : List Expense) : List (String × ℚ) :=
  es.foldl breakdownStep []

/-- Dashboard `labels = list(category_data.keys())`. -/
def labels (es : List Expense) : List String :=
  (category_data es).map Prod.fst

/-- Dashboard `values = list(category_data.values())`. -/
def values (es : List Expense) : List ℚ :=
  (category_data es).map Prod.snd

/-- Salted password hash (werkzeug `generate_password_hash` output),
modelled as the salt together with an injective abstraction of the salted
digest: `check_password_hash` verifies exactly the hashed password, so the
digest is represented by the password it verifies. -/
structure PwHash where
  salt : Nat
  digest : String
deriving DecidableEq, Repr

/-- Model of werkzeug `generate_password_hash(pw)`; the salt is drawn
fresh by the caller's environment and passed explicitly. -/
def generate_password_hash (salt : Nat) (pw : String) : PwHash :=
  ⟨salt, pw⟩

/-- Model of werkzeug `check_password_hash(h, pw)`: verification succeeds
exactly when `pw` is the password that was hashed. -/
def check_password_hash (h : PwHash) (pw : String) : Bool :=
  h.digest == pw

/-- Row of the `user` table. -/
structure UserRec where
  id : Nat
  username : String
  password : PwHash
deriving DecidableEq, Repr

/-- Credential store state: the `user` table rows plus the autoincrement
counter for the next primary key. -/
structure AuthState where
  users : List UserRec
  nextUserId : Nat
deriving DecidableEq, Repr

/-- Outcome of `POST /register`. -/
inductive RegisterResult
  | created
  | duplicateUsername
deriving DecidableEq, Repr

/-- Outcome of `POST /login`: success carries the authenticated user's id;
every failure is the single uniform `Invalid credentials` notice. -/
inductive LoginResult
  | success (uid : Nat)
  | invalidCredentials
deriving DecidableEq, Repr

/-- Handler for `POST /register` (`register`): the password is hashed
first; if the username already exists the handler flashes and redirects
without touching the store, otherwise the new user row is inserted. -/
def register (st : AuthState) (salt : Nat) (username rawPassword : String) :
    AuthState × RegisterResult :=
  let pw := generate_password_hash salt rawPassword
  if (st.users.find? (fun u => u.username == username)).isSome then
    (st, RegisterResult.duplicateUsername)
  else
    (⟨st.users ++ [⟨st.nextUserId, username, pw⟩], st.nextUserId + 1⟩,
     RegisterResult.created)

/-- Handler for `POST /login` (`login`): look the username up; succeed only
when a row was found and its stored hash verifies the supplied password;
both an unknown username and a failed verification fall through to the one
`Invalid credentials` flash. -/
def login (st : AuthState) (username rawPassword : String) : LoginResult :=
  match st.users.find? (fun u => u.username == username) with
  | some u =>
      if check_password_hash u.password rawPassword then
        LoginResult.success u.id
      else LoginResult.invalidCredentials
  | none => LoginResult.invalidCredentials

/-- One authenticated mutating request against the ledger. -/
inductive Op
  | addOp (uid : Nat) (form : EntryForm)
  | editOp (uid : Nat) (eid : Nat) (form : EntryForm)
  | deleteOp (uid : Nat) (eid : Nat)
deriving DecidableEq, Repr

/-- State reached after one request (the response is discarded). -/
def applyOp (st : LedgerState) (op : Op) : LedgerState :=
  match op with
  | Op.addOp uid f => (add_expense st uid f).1
  | Op.editOp uid eid f => (edit_expense st uid eid f).1
  | Op.deleteOp uid eid => (delete_expense st uid eid).1

/-- State reached after a sequence of requests. -/
def runOps (st : LedgerState) (ops : List Op) : LedgerState :=
  ops.foldl applyOp st

/-- Empty ledger, as created by `db.create_all()`. -/
def initState : LedgerState :=
  ⟨[], 1⟩

/-! ### Aggregation lemmas -/

/-- Sum of all values stored in a breakdown association list. -/
def breakdownSum (acc : List (String × ℚ)) : ℚ :=
  (acc.map Prod.snd).sum

theorem breakdownSum_cons (p : String × ℚ) (l : List (String × ℚ)) :
    breakdownSum (p :: l) = p.2 + breakdownSum l := by
  simp [breakdownSum]

theorem addToBreakdown_sum (cat : String) (amt : ℚ) :
    ∀ acc : List (String × ℚ),
      breakdownSum (addToBreakdown acc cat amt) = breakdownSum acc + amt
  | [] => by simp [addToBreakdown, breakdownSum]
  | (c, v) :: rest => by
      by_cases h : c == cat
      · simp [addToBreakdown, h, breakdownSum_cons]
        ring
      · simp [addToBreakdown, h, breakdownSum_cons,
          addToBreakdown_sum cat amt rest]
        ring

theorem total_expense_cons (e : Expense) (es : List Expense) :
    total_expense (e :: es) =
      (if e.expense_type == "expense" then e.amount else 0) + total_expense es := by
  by_cases h : e.expense_type == "expense" <;>
    simp [total_expense, List.filter_cons, h]

theorem foldl_breakdownStep_sum (es : List Expense) :
    ∀ acc : List (String × ℚ),
      breakdownSum (es.foldl breakdownStep acc) =
        breakdownSum acc + total_expense es := by
  induction es with
  | nil =>
      intro acc
      simp [total_expense]
  | cons e rest ih =>
      intro acc
      rw [List.foldl_cons, ih, total_expense_cons]
      by_cases h : e.expense_type == "expense"
      · simp [breakdownStep, h, addToBreakdown_sum]
        ring
      · simp [breakdownStep, h]

theorem foldl_breakdownStep_filter (es : List Expense) :
    ∀ acc : List (String × ℚ),
      es.foldl breakdownStep acc =
        (es.filter (fun e => e.expense_type == "expense")).foldl breakdownStep acc := by
  induction es with
  | nil =>
      intro acc
      rfl
  | cons e rest ih =>
      intro acc
      by_cases h : e.expense_type == "expense" <;>
        simp [List.filter_cons, h, breakdownStep, ih]

/-- C1: the category breakdown is built from expense-kind rows only (the
fold is unchanged by discarding every row of any other kind, so income
rows never contribute), and the values of the breakdown sum to
`total_expense`. -/
theorem c1_breakdown_expense_only_and_total (es : List Expense) :
    (values es).sum = total_expense es ∧
    category_data es =
      category_data (es.filter (fun e => e.expense_type == "expense")) := by
  constructor
  · have h := foldl_breakdownStep_sum es []
    simpa [values, category_data, breakdownSum] using h
  · simpa [category_data] using foldl_breakdownStep_filter es []

/-! ### Breakdown order lemmas -/

/-- Keys of a list in order of first occurrence (the iteration order of a
Python dict grown by indexed assignment). -/
def firstOccur : List String → List String
  | [] => []
  | c :: rest => c :: (firstOccur rest).filter (fun x => x != c)

/-- Category/amount pairs of the expense-kind rows, in input order. -/
def pairsOf (es : List Expense) : List (String × ℚ) :=
  (es.filter (fun e => e.expense_type == "expense")).map
    (fun e => (e.category, e.amount))

/-- Total of the values bound to key `c` in a list of pairs. -/
def sumFor (ps : List (String × ℚ)) (c : String) : ℚ :=
  ((ps.filter (fun p => p.1 == c)).map Prod.snd).sum

/-- Canonical form of a breakdown built from a list of pairs: keys in
first-occurrence order, each bound to the total of its values. -/
def canonical (ps : List (String × ℚ)) : List (String × ℚ) :=
  (firstOccur (ps.map Prod.fst)).map (fun c => (c, sumFor ps c))

/-- Sum of the amounts of the expense-kind rows with category `c`. -/
def catSum (es : List Expense) (c : String) : ℚ :=
  ((es.filter (fun e => e.expense_type == "expense" && e.category == c)).map
    (fun e => e.amount)).sum

theorem mem_firstOccur (c : String) :
    ∀ l : List String, c ∈ firstOccur l ↔ c ∈ l
  | [] => Iff.rfl
  | a :: l => by
      simp [firstOccur, List.mem_filter, bne_iff_ne, mem_firstOccur c l]
      tauto

theorem firstOccur_nodup : ∀ l : List String, (firstOccur l).Nodup
  | [] => List.nodup_nil
  | a :: l => by
      rw [firstOccur, List.nodup_cons]
      constructor
      · simp [List.mem_filter]
      · exact (firstOccur_nodup l).filter _

theorem firstOccur_append_single (c : String) :
    ∀ l : List String,
      firstOccur (l ++ [c]) =
        if c ∈ l then firstOccur l else firstOccur l ++ [c]
  | [] => by simp [firstOccur]
  | a :: l => by
      have ih := firstOccur_append_single c l
      by_cases hc : c ∈ l
      · simp [firstOccur, ih, hc, List.mem_cons]
      · by_cases hca : c = a
        · subst hca
          simp [firstOccur, ih, hc, List.filter_append]
        · simp [firstOccur, ih, hc, hca, List.filter_append, bne_iff_ne]

theorem sumFor_cons (p : String × ℚ) (ps : List (String × ℚ)) (c : String) :
    sumFor (p :: ps) c = (if p.1 == c then p.2 else 0) + sumFor ps c := by
  by_cases h : p.1 == c <;> simp [sumFor, List.filter_cons, h]

theorem sumFor_append (ps qs : List (String × ℚ)) (x : String) :
    sumFor (ps ++ qs) x = sumFor ps x + sumFor qs x := by
  simp [sumFor, List.filter_append]

theorem sumFor_snoc (ps : List (String × ℚ)) (c : String) (a : ℚ) (x : String) :
    sumFor (ps ++ [(c, a)]) x = sumFor ps x + if x = c then a else 0 := by
  rw [sumFor_append]
  congr 1
  by_cases hx : x = c
  · simp [sumFor_cons, sumFor, hx]
  · have hcx : (c == x) = false := by
      rw [beq_eq_false_iff_ne]
      exact fun hh => hx hh.symm
    simp [sumFor_cons, sumFor, hcx, hx]

theorem sumFor_eq_zero (c : String) :
    ∀ ps : List (String × ℚ), c ∉ ps.map Prod.fst → sumFor ps c = 0
  | [] => by
      intro h
      simp [sumFor]
  | p :: ps => by
      intro h
      rw [List.map_cons, List.mem_cons] at h
      push_neg at h
      have hne : (p.1 == c) = false := by
        rw [beq_eq_false_iff_ne]
        exact fun hh => h.1 hh.symm
      simp [sumFor_cons, hne, sumFor_eq_zero c ps h.2]

theorem addToBreakdown_not_mem (cat : String) (amt : ℚ) :
    ∀ acc : List (String × ℚ), cat ∉ acc.map Prod.fst →
      addToBreakdown acc cat amt = acc ++ [(cat, amt)]
  | [] => by
      intro h
      simp [addToBreakdown]
  | (c, v) :: acc => by
      intro h
      rw [List.map_cons, List.mem_cons] at h
      push_neg at h
      have hne : (c == cat) = false := by
        rw [beq_eq_false_iff_ne]
        exact fun hh => h.1 hh.symm
      simp [addToBreakdown, hne, addToBreakdown_not_mem cat amt acc h.2]

theorem addToBreakdown_map (cat : String) (amt : ℚ) (F : String → ℚ) :
    ∀ L : List String, L.Nodup → cat ∈ L →
      addToBreakdown (L.map (fun x => (x, F x))) cat amt =
        L.map (fun x => (x, F x + if x = cat then amt else 0))
  | [] => by
      intro _ hmem
      cases hmem
  | x :: L => by
      intro hnd hmem
      rw [List.nodup_cons] at hnd
      by_cases hx : x = cat
      · subst hx
        simp only [List.map_cons, addToBreakdown, beq_self_eq_true, if_pos rfl,
          if_true]
        congr 1
        apply List.map_congr_left
        intro y hy
        have : y ≠ x := fun hh => hnd.1 (hh ▸ hy)
        simp [this]
      · have hxc : (x == cat) = false := by
          rw [beq_eq_false_iff_ne]
          exact hx
        have hmem' : cat ∈ L := by
          rcases List.mem_cons.mp hmem with h | h
          · exact absurd h.symm hx
          · exact h
        simp only [List.map_cons, addToBreakdown, hxc, Bool.false_eq_true,
          if_false, hx, if_neg hx]
        rw [addToBreakdown_map cat amt F L hnd.2 hmem']
        simp

theorem addToBreakdown_canonical (c : String) (a : ℚ)
    (ps : List (String × ℚ)) :
    addToBreakdown (canonical ps) c a = canonical (ps ++ [(c, a)]) := by
  have hks : (ps ++ [(c, a)]).map Prod.fst = ps.map Prod.fst ++ [c] := by
    simp
  by_cases h : c ∈ ps.map Prod.fst
  · rw [canonical, canonical, hks, firstOccur_append_single, if_pos h,
      addToBreakdown_map c a (fun x => sumFor ps x)
        (firstOccur (ps.map Prod.fst)) (firstOccur_nodup _)
        ((mem_firstOccur c _).mpr h)]
    apply List.map_congr_left
    intro x _
    rw [sumFor_snoc]
  · rw [canonical, canonical, hks, firstOccur_append_single, if_neg h,
      List.map_append]
    have hnotin : c ∉ ((firstOccur (ps.map Prod.fst)).map
        (fun x => (x, sumFor ps x))).map Prod.fst := by
      simpa [List.map_map, Function.comp, mem_firstOccur] using h
    rw [addToBreakdown_not_mem c a _ hnotin]
    congr 1
    · apply List.map_congr_left
      intro x hx
      have hxk : x ∈ ps.map Prod.fst := (mem_firstOccur x _).mp hx
      have hxc : x ≠ c := fun hh => h (hh ▸ hxk)
      rw [sumFor_snoc]
      simp [hxc]
    · simp [sumFor_snoc, sumFor_eq_zero c ps h]

theorem foldl_addToBreakdown_canonical (ps : List (String × ℚ)) :
    ps.foldl (fun acc p => addToBreakdown acc p.1 p.2) [] = canonical ps := by
  induction ps using List.reverseRecOn with
  | nil => rfl
  | append_singleton l p ih =>
      rw [List.foldl_append, List.foldl_cons, List.foldl_nil, ih]
      obtain ⟨c, a⟩ := p
      exact addToBreakdown_canonical c a l

theorem category_data_eq_canonical (es : List Expense) :
    category_data es = canonical (pairsOf es) := by
  rw [category_data, foldl_breakdownStep_filter,
    ← foldl_addToBreakdown_canonical, pairsOf, List.foldl_map]
  apply List.foldl_ext
  intro acc e he
  rw [List.mem_filter] at he
  simp [breakdownStep, he.2]

theorem pairsOf_cons (e : Expense) (es : List Expense) :
    pairsOf (e :: es) =
      if e.expense_type == "expense" then
        (e.category, e.amount) :: pairsOf es
      else pairsOf es := by
  by_cases h : e.expense_type == "expense" <;>
    simp [pairsOf, List.filter_cons, h]

theorem catSum_cons (e : Expense) (es : List Expense) (c : String) :
    catSum (e :: es) c =
      (if e.expense_type == "expense" && e.category == c then e.amount else 0) +
        catSum es c := by
  by_cases h : e.expense_type == "expense" && e.category == c <;>
    simp [catSum, List.filter_cons, h]

theorem sumFor_pairsOf (c : String) :
    ∀ es : List Expense, sumFor (pairsOf es) c = catSum es c
  | [] => rfl
  | e :: es => by
      have ih := sumFor_pairsOf c es
      rw [pairsOf_cons, catSum_cons]
      by_cases hp : e.expense_type == "expense"
      · by_cases hc : e.category == c
        · simp [hp, hc, sumFor_cons, ih]
        · simp [hp, hc, sumFor_cons, ih]
      · simp [hp, ih]

theorem canonical_keys (ps : List (String × ℚ)) :
    (canonical ps).map Prod.fst = firstOccur (ps.map Prod.fst) := by
  rw [canonical, List.map_map]
  have h : (Prod.fst ∘ fun c => (c, sumFor ps c)) = @id String := rfl
  rw [h, List.map_id]

theorem pairsOf_keys (es : List Expense) :
    (pairsOf es).map Prod.fst =
      (es.filter (fun e => e.expense_type == "expense")).map
        (fun e => e.category) := by
  rw [pairsOf, List.map_map]
  rfl

/-- C6: the emitted category labels are the expense-kind rows' categories
in order of first occurrence, and the label and value sequences are
parallel: equal length, the value at each position being the summed
amount of the expense-kind rows with the label at that position. -/
theorem c6_breakdown_parallel_order (es : List Expense) :
    labels es =
      firstOccur ((es.filter (fun e => e.expense_type == "expense")).map
        (fun e => e.category)) ∧
    (labels es).length = (values es).length ∧
    values es = (labels es).map (fun c => catSum es c) := by
  have hcd := category_data_eq_canonical es
  refine ⟨?_, ?_, ?_⟩
  · rw [labels, hcd, canonical_keys, pairsOf_keys]
  · rw [labels, values]
    simp
  · rw [labels, values, hcd, canonical]
    simp only [List.map_map]
    apply List.map_congr_left
    intro x _
    show sumFor (pairsOf es) x = catSum es x
    exact sumFor_pairsOf x es

/-! ### Concrete data for evaluating the theorems -/

/-- Demo row owned by user 2. -/
def aliceEntry : Expense :=
  ⟨1, "Coffee", 4, "Food", "expense", ⟨2024, 1, 1⟩, 2⟩

/-- Demo ledger holding only `aliceEntry`. -/
def demoLedger : LedgerState :=
  ⟨[aliceEntry], 2⟩

/-- Well-formed add/edit form. -/
def demoForm : EntryForm :=
  ⟨"Lunch", "12", "Food", "expense", "2024-01-02"⟩

/-- Form whose amount field does not parse as a number. -/
def badForm : EntryForm :=
  ⟨"Lunch", "abc", "Food", "expense", "2024-01-02"⟩

/-- Well-formed edit form used by the owner. -/
def ownerForm : EntryForm :=
  ⟨"Tea", "3", "Drinks", "expense", "2024-02-29"⟩

/-- Demo credential store holding one account. -/
def demoAuth : AuthState :=
  ⟨[⟨1, "alice", generate_password_hash 7 "secret"⟩], 2⟩

/-- Row whose kind is neither income nor expense. -/
def transferEntry : Expense :=
  ⟨3, "Move", 10, "Savings", "transfer", ⟨2024, 1, 3⟩, 1⟩

/-- Add form whose kind field is neither income nor expense. -/
def transferForm : EntryForm :=
  ⟨"Move", "10", "Savings", "transfer", "2024-01-03"⟩

/-- Add form carrying a negative amount, which `float()` parses. -/
def negForm : EntryForm :=
  ⟨"Refund", "-5", "Misc", "expense", "2024-01-01"⟩

/-! ### Authorization and error-handling theorems -/

/-- C2: a request by an authenticated user against a row owned by a
different user never mutates the ledger: delete falls through to its
redirect without deleting, and edit redirects to the dashboard without
updating; in both cases the state after equals the state before. -/
theorem c2_cross_user_denied (st : LedgerState) (uid eid : Nat) (e : Expense)
    (form : EntryForm)
    (hfind : st.expenses.find? (fun x => x.id == eid) = some e)
    (hown : e.user_id ≠ uid) :
    delete_expense st uid eid = (st, Response.redirect "view_expenses") ∧
    edit_expense st uid eid form = (st, Response.redirect "dashboard") := by
  have h1 : (e.user_id == uid) = false := by
    rw [beq_eq_false_iff_ne]
    exact hown
  constructor
  · simp [delete_expense, hfind, h1]
  · simp [edit_expense, hfind, bne, h1]

theorem c2_cross_user_denied_witness :
    delete_expense demoLedger 1 1 = (demoLedger, Response.redirect "view_expenses") ∧
    edit_expense demoLedger 1 1 demoForm = (demoLedger, Response.redirect "dashboard") :=
  c2_cross_user_denied demoLedger 1 1 aliceEntry demoForm (by decide) (by decide)

/-- C3: login succeeds exactly when the username lookup finds a row whose
stored hash verifies the supplied password, and any failure — unknown
username or wrong password alike — yields the single uniform
`invalidCredentials` outcome, with no other observable difference. -/
theorem c3_login_iff_uniform_failure (st : AuthState) (un pw : String) :
    ((∃ uid, login st un pw = LoginResult.success uid) ↔
      ∃ u, st.users.find? (fun x => x.username == un) = some u ∧
        check_password_hash u.password pw = true) ∧
    ((¬ ∃ u, st.users.find? (fun x => x.username == un) = some u ∧
        check_password_hash u.password pw = true) →
      login st un pw = LoginResult.invalidCredentials) := by
  constructor
  · constructor
    · intro hex
      obtain ⟨uid, hsucc⟩ := hex
      rw [login] at hsucc
      cases hfind : st.users.find? (fun x => x.username == un) with
      | none =>
          rw [hfind] at hsucc
          cases hsucc
      | some u =>
          rw [hfind] at hsucc
          by_cases hchk : check_password_hash u.password pw
          · exact ⟨u, rfl, hchk⟩
          · simp [hchk] at hsucc
    · intro hex
      obtain ⟨u, hfind, hchk⟩ := hex
      refine ⟨u.id, ?_⟩
      rw [login, hfind]
      simp [hchk]
  · intro hfail
    rw [login]
    cases hfind : st.users.find? (fun x => x.username == un) with
    | none => rfl
    | some u =>
        by_cases hchk : check_password_hash u.password pw
        · exact absurd ⟨u, hfind, hchk⟩ hfail
        · simp [hchk]

theorem c3_login_iff_uniform_failure_witness :
    login demoAuth "alice" "wrong" = LoginResult.invalidCredentials ∧
    login demoAuth "bob" "secret" = LoginResult.invalidCredentials := by
  constructor
  · apply (c3_login_iff_uniform_failure demoAuth "alice" "wrong").2
    rintro ⟨u, hu, hchk⟩
    have hx : demoAuth.users.find? (fun x => x.username == "alice") =
        some ⟨1, "alice", ⟨7, "secret"⟩⟩ := by decide
    rw [hx, Option.some.injEq] at hu
    subst hu
    exact absurd hchk (by decide)
  · apply (c3_login_iff_uniform_failure demoAuth "bob" "secret").2
    rintro ⟨u, hu, _⟩
    have hx : demoAuth.users.find? (fun x => x.username == "bob") = none := by
      decide
    rw [hx] at hu
    cases hu

/-- C4: registering a username that is already present fails with the
duplicate-username outcome and returns the credential store unchanged, so
the existing account and its password hash are untouched. -/
theorem c4_duplicate_register (st : AuthState) (salt : Nat) (un pw : String)
    (u : UserRec)
    (hfind : st.users.find? (fun x => x.username == un) = some u) :
    register st salt un pw = (st, RegisterResult.duplicateUsername) := by
  simp [register, hfind]

theorem c4_duplicate_register_witness :
    register demoAuth 9 "alice" "newpass" =
      (demoAuth, RegisterResult.duplicateUsername) :=
  c4_duplicate_register demoAuth 9 "alice" "newpass"
    ⟨1, "alice", ⟨7, "secret"⟩⟩ (by decide)

/-- C5: an identifier matching no stored row makes both delete and edit
resolve to the handled not-found outcome with the ledger unchanged. -/
theorem c5_not_found (st : LedgerState) (uid eid : Nat) (form : EntryForm)
    (hfind : st.expenses.find? (fun e => e.id == eid) = none) :
    delete_expense st uid eid = (st, Response.notFound) ∧
    edit_expense st uid eid form = (st, Response.notFound) := by
  constructor
  · simp [delete_expense, hfind]
  · simp [edit_expense, hfind]

theorem c5_not_found_witness :
    delete_expense initState 1 5 = (initState, Response.notFound) ∧
    edit_expense initState 1 5 demoForm = (initState, Response.notFound) :=
  c5_not_found initState 1 5 demoForm (by decide)

/-- C7: a form whose amount does not parse or whose date is not a valid
calendar day makes add, and owner-matched edit, surface the uncaught
validation failure, and the ledger state is unchanged: no row is created
or modified. -/
theorem c7_validation_uncaught (st : LedgerState) (uid eid : Nat)
    (e : Expense) (form : EntryForm)
    (hbad : parseFloat form.amount = none ∨ parseDate form.date = none)
    (hfind : st.expenses.find? (fun x => x.id == eid) = some e)
    (hown : e.user_id = uid) :
    add_expense st uid form = (st, Response.validationError) ∧
    edit_expense st uid eid form = (st, Response.validationError) := by
  have hne : (e.user_id != uid) = false := by
    simp [bne, hown]
  rcases hbad with hb | hb
  · refine ⟨?_, ?_⟩
    · cases hd : parseDate form.date <;> simp [add_expense, hb, hd]
    · cases hd : parseDate form.date <;>
        simp [edit_expense, hfind, hne, hb, hd]
  · refine ⟨?_, ?_⟩
    · cases ha : parseFloat form.amount <;> simp [add_expense, hb, ha]
    · cases ha : parseFloat form.amount <;>
        simp [edit_expense, hfind, hne, hb, ha]

theorem c7_validation_uncaught_witness :
    add_expense demoLedger 2 badForm = (demoLedger, Response.validationError) ∧
    edit_expense demoLedger 2 1 badForm = (demoLedger, Response.validationError) :=
  c7_validation_uncaught demoLedger 2 1 aliceEntry badForm
    (Or.inl (by decide)) (by decide) (by decide)

/-- C9: when an edit proceeds, only the targeted row changes, and only in
its five mutable fields: the row keeps its id and owner, the id counter is
unchanged, and every other row is returned exactly as stored. -/
theorem c9_owner_immutable_frame (st : LedgerState) (uid eid : Nat)
    (e : Expense) (form : EntryForm) (amt : ℚ) (d : Date)
    (hfind : st.expenses.find? (fun x => x.id == eid) = some e)
    (hown : e.user_id = uid)
    (hamt : parseFloat form.amount = some amt)
    (hdate : parseDate form.date = some d) :
    (edit_expense st uid eid form).1.expenses.length = st.expenses.length ∧
    (edit_expense st uid eid form).1.nextId = st.nextId ∧
    ∀ (i : Nat) (x : Expense), st.expenses[i]? = some x →
      (edit_expense st uid eid form).1.expenses[i]? =
        some (if x.id == eid then
            ⟨x.id, form.title, amt, form.category, form.expense_type, d,
              x.user_id⟩
          else x) := by
  have hne : (e.user_id != uid) = false := by
    simp [bne, hown]
  have hedit : edit_expense st uid eid form =
      (⟨st.expenses.map (fun x =>
          if x.id == eid then
            ⟨x.id, form.title, amt, form.category, form.expense_type, d,
              x.user_id⟩
          else x),
        st.nextId⟩,
       Response.redirect "view_expenses") := by
    simp [edit_expense, hfind, hne, hamt, hdate]
  rw [hedit]
  refine ⟨by simp, rfl, ?_⟩
  intro i x hx
  simp [List.getElem?_map, hx]

theorem c9_owner_immutable_frame_witness :
    (edit_expense demoLedger 2 1 ownerForm).1.expenses[0]? =
      some ⟨1, "Tea", 3, "Drinks", "expense", ⟨2024, 2, 29⟩, 2⟩ := by
  have h := c9_owner_immutable_frame demoLedger 2 1 aliceEntry ownerForm 3
    ⟨2024, 2, 29⟩ (by decide) (by decide) (by decide) (by decide)
  have h0 := h.2.2 0 aliceEntry (by decide)
  simpa [aliceEntry] using h0

/-- C10: add stores the submitted kind verbatim (no validation against
income/expense), and a stored row of any other kind contributes to none
of `total_income`, `total_expense`, `net_balance` or the category
breakdown. -/
theorem c10_unvalidated_kind (st : LedgerState) (uid : Nat) (form : EntryForm)
    (amt : ℚ) (d : Date) (es1 es2 : List Expense) (ex : Expense)
    (hamt : parseFloat form.amount = some amt)
    (hdate : parseDate form.date = some d)
    (hinc : ex.expense_type ≠ "income")
    (hexp : ex.expense_type ≠ "expense") :
    (add_expense st uid form).1.expenses =
      st.expenses ++
        [⟨st.nextId, form.title, amt, form.category, form.expense_type, d,
          uid⟩] ∧
    total_income (es1 ++ ex :: es2) = total_income (es1 ++ es2) ∧
    total_expense (es1 ++ ex :: es2) = total_expense (es1 ++ es2) ∧
    net_balance (es1 ++ ex :: es2) = net_balance (es1 ++ es2) ∧
    category_data (es1 ++ ex :: es2) = category_data (es1 ++ es2) := by
  have hi : (ex.expense_type == "income") = false := by
    rw [beq_eq_false_iff_ne]
    exact hinc
  have hx : (ex.expense_type == "expense") = false := by
    rw [beq_eq_false_iff_ne]
    exact hexp
  refine ⟨?_, ?_, ?_, ?_, ?_⟩
  · simp [add_expense, hamt, hdate]
  · simp [total_income, List.filter_append, List.filter_cons, hi]
  · simp [total_expense, List.filter_append, List.filter_cons, hx]
  · simp [net_balance, total_income, total_expense, List.filter_append,
      List.filter_cons, hi, hx]
  · rw [category_data, category_data, List.foldl_append, List.foldl_append,
      List.foldl_cons]
    have hskip : breakdownStep (es1.foldl breakdownStep []) ex =
        es1.foldl breakdownStep [] := by
      simp [breakdownStep, hx]
    rw [hskip]

theorem c10_unvalidated_kind_witness :
    (add_expense initState 1 transferForm).1.expenses =
      initState.expenses ++
        [⟨initState.nextId, transferForm.title, 10, transferForm.category,
          transferForm.expense_type, ⟨2024, 1, 3⟩, 1⟩] ∧
    total_income ([] ++ transferEntry :: []) = total_income ([] ++ []) ∧
    total_expense ([] ++ transferEntry :: []) = total_expense ([] ++ []) ∧
    net_balance ([] ++ transferEntry :: []) = net_balance ([] ++ []) ∧
    category_data ([] ++ transferEntry :: []) = category_data ([] ++ []) :=
  c10_unvalidated_kind initState 1 transferForm 10 ⟨2024, 1, 3⟩ [] []
    transferEntry (by decide) (by decide) (by decide) (by decide)

/-! ### Non-negativity analysis (C8) -/

/-- Whether every row in the ledger has a non-negative amount. -/
def ledgerNonneg (st : LedgerState) : Bool :=
  st.expenses.all (fun e => decide (0 ≤ e.amount))

/-- Whether the amount a request submits parses non-negative (vacuously
true when it does not parse, and for deletes). -/
def opAmountNonneg (op : Op) : Bool :=
  match op with
  | Op.addOp _ f =>
      match parseFloat f.amount with
      | some q => decide (0 ≤ q)
      | none => true
  | Op.editOp _ _ f =>
      match parseFloat f.amount with
      | some q => decide (0 ≤ q)
      | none => true
  | Op.deleteOp _ _ => true

theorem applyOp_nonneg (st : LedgerState) (op : Op)
    (hop : opAmountNonneg op = true) (hst : ledgerNonneg st = true) :
    ledgerNonneg (applyOp st op) = true := by
  cases op with
  | addOp uid f =>
      cases ha : parseFloat f.amount with
      | none =>
          cases hd : parseDate f.date <;>
            simpa [applyOp, add_expense, ha, hd] using hst
      | some q =>
          cases hd : parseDate f.date with
          | none => simpa [applyOp, add_expense, ha, hd] using hst
          | some d =>
              have hq : decide (0 ≤ q) = true := by
                simpa [opAmountNonneg, ha] using hop
              simp only [ledgerNonneg] at hst
              simp [applyOp, add_expense, ha, hd, ledgerNonneg,
                List.all_append, hst, hq]
  | editOp uid eid f =>
      simp only [applyOp]
      cases hfind : st.expenses.find? (fun x => x.id == eid) with
      | none => simpa [edit_expense, hfind] using hst
      | some e =>
          cases hown : e.user_id != uid with
          | true => simpa [edit_expense, hfind, hown] using hst
          | false =>
              cases ha : parseFloat f.amount with
              | none =>
                  cases hd : parseDate f.date <;>
                    simpa [edit_expense, hfind, hown, ha, hd] using hst
              | some q =>
                  cases hd : parseDate f.date with
                  | none =>
                      simpa [edit_expense, hfind, hown, ha, hd] using hst
                  | some d =>
                      have hq : decide (0 ≤ q) = true := by
                        simpa [opAmountNonneg, ha] using hop
                      simp only [edit_expense, hfind, hown, ha, hd,
                        Bool.false_eq_true, if_false]
                      simp only [ledgerNonneg] at hst ⊢
                      rw [List.all_eq_true] at hst ⊢
                      intro x hx
                      rw [List.mem_map] at hx
                      obtain ⟨y, hy, rfl⟩ := hx
                      by_cases hid : (y.id == eid) = true
                      · simp [hid, hq]
                      · simp only [Bool.not_eq_true] at hid
                        simp [hid]
                        exact of_decide_eq_true (hst y hy)
  | deleteOp uid eid =>
      simp only [applyOp]
      cases hfind : st.expenses.find? (fun x => x.id == eid) with
      | none => simpa [delete_expense, hfind] using hst
      | some e =>
          cases hown : e.user_id == uid with
          | false => simpa [delete_expense, hfind, hown] using hst
          | true =>
              simp only [delete_expense, hfind, hown, if_true]
              simp only [ledgerNonneg] at hst ⊢
              rw [List.all_eq_true] at hst ⊢
              intro x hx
              exact hst x (List.mem_of_mem_filter hx)

/-- C8 (amended): the handlers never check the sign of a submitted
amount, so non-negativity of stored amounts holds only conditionally: if
every submitted amount that parses is non-negative, then every ledger
state reachable from the empty store through add, edit and delete
requests contains only non-negative amounts. -/
theorem c8_amended_nonneg_conditional (ops : List Op)
    (hops : ops.all opAmountNonneg = true) :
    ledgerNonneg (runOps initState ops) = true := by
  have gen : ∀ l : List Op, ∀ st : LedgerState,
      l.all opAmountNonneg = true → ledgerNonneg st = true →
        ledgerNonneg (runOps st l) = true := by
    intro l
    induction l with
    | nil =>
        intro st _ hst
        exact hst
    | cons op rest ih =>
        intro st hall hst
        rw [List.all_cons, Bool.and_eq_true] at hall
        exact ih (applyOp st op) hall.2 (applyOp_nonneg st op hall.1 hst)
  exact gen ops initState hops (by decide)

theorem c8_amended_nonneg_conditional_witness :
    ledgerNonneg
      (runOps initState [Op.addOp 1 demoForm, Op.addOp 1 transferForm]) =
      true :=
  c8_amended_nonneg_conditional [Op.addOp 1 demoForm, Op.addOp 1 transferForm]
    (by decide)

/-- C8 (counterexample): a single add request whose amount field is
`"-5"` parses and is stored, reaching a state that holds a negative
amount; the claimed invariant fails on the code. -/
theorem c8_counterexample_negative_amount :
    ledgerNonneg (runOps initState [Op.addOp 1 negForm]) = false := by
  decide

end ExpenseApp
